import Mathlib

/-!
Verification of the fixture-file format engine of `pytest-param-files`
(`pytest_param_files/main.py`): the "dot" text-format parser
(`DotFormat.read`), the comparison engine (`assert_expected_strings`,
`DotFormat.assert_expected`, `YamlFormat.assert_expected`), the regeneration
engine (`DotFormat.regen_file`, `YamlFormat.regen_file`) and the
`ParamTestData.assert_expected` facade.

The Python source is embedded shallowly: file I/O is replaced by passing the
file's text; `str` operations (`splitlines`, `rstrip`, `strip`, slicing,
`join`) are modelled over `String`/`List Char`; exceptions become `Except`.
`str.splitlines` is modelled with its full set of line boundaries
(`\n`, `\r`, `\r\n`, `\x0b`, `\x0c`, `\x1c`, `\x1d`, `\x1e`, `\x85`,
`\u2028`, `\u2029`).
-/

/-- The line-boundary characters of Python `str.splitlines`: LF, CR, VT, FF,
FS, GS, RS, NEL, LINE SEPARATOR and PARAGRAPH SEPARATOR.  (`"\r\n"` is
consumed as a single boundary by the splitter itself.) -/
def isLineBoundary (c : Char) : Bool :=
  c == '\n' || c == '\r' || c == '\x0b' || c == '\x0c' || c == '\x1c' ||
  c == '\x1d' || c == '\x1e' || c == '\x85' || c == '\u2028' || c == '\u2029'

/-- Python whitespace characters recognised by `str.strip` / `str.rstrip`:
ASCII whitespace and the separator controls, all of which include the line
boundaries.  (Python also strips some Unicode spaces, e.g. `'\xa0'` and
`'\u2000'` to `'\u200a'`, which are not line boundaries; no statement here
depends on them.) -/
def isPyWs (c : Char) : Bool :=
  c == ' ' || c == '\t' || c == '\x1f' || isLineBoundary c

/-- Python `str.rstrip()` with no argument. -/
def pyRstrip (s : String) : String :=
  String.mk ((s.data.reverse.dropWhile isPyWs).reverse)

/-- Python `str.strip()` with no argument. -/
def pyStrip (s : String) : String :=
  String.mk (((s.data.dropWhile isPyWs).reverse.dropWhile isPyWs).reverse)

/-- Worker for `str.splitlines(keepends=True)`: `acc` holds the (reversed)
characters of the current unfinished line. -/
def splitlinesAux : List Char → List Char → List String
  | [], acc => if acc.isEmpty then [] else [String.mk acc.reverse]
  | '\r' :: '\n' :: rest, acc => String.mk (acc.reverse ++ ['\r', '\n']) :: splitlinesAux rest []
  | c :: rest, acc =>
    if isLineBoundary c then String.mk (acc.reverse ++ [c]) :: splitlinesAux rest []
    else splitlinesAux rest (c :: acc)

/-- Python `text.splitlines(keepends=True)`. -/
def splitlines (s : String) : List String := splitlinesAux s.data []

/-- Remove one trailing line boundary from a line produced by `splitlines`. -/
def stripBreak (s : String) : String :=
  match s.data.reverse with
  | '\n' :: '\r' :: rest => String.mk rest.reverse
  | c :: rest => if isLineBoundary c then String.mk rest.reverse else s
  | [] => s

/-- Python `text.splitlines()` (without keepends). -/
def splitlinesNoKeep (s : String) : List String := (splitlines s).map stripBreak

deriving instance DecidableEq for Except

/-- A string ends with a line-boundary character. -/
def endsBreak (s : String) : Bool :=
  match s.data.getLast? with
  | some c => isLineBoundary c
  | none => false

/-- A string ends with a line-feed character: Python `s.endswith("\n")`. -/
def endsWithLF (s : String) : Bool :=
  match s.data.getLast? with
  | some c => c == '\n'
  | none => false

/-- Python slice `l[a:b]` for `0 ≤ a, b`. -/
def pySlice (l : List String) (a b : Nat) : List String := (l.take b).drop a

/-- `True` iff the line is a record terminator: `line.rstrip() == "."`. -/
def isTerm (s : String) : Bool := pyRstrip s == "."

/-- Index of the last `]` in `cs`, if any. -/
def lastIdxOf (cs : List Char) : Option Nat :=
  match cs.reverse.findIdx? (· == ']') with
  | some j => some (cs.length - 1 - j)
  | none => none

/-- Python `re.match` of `_TITLE_RE = r"^\s*\[(?P<title>\S+)\]\s*(?P<description>.*)$"`.
Returns `(title, description)` on a match.  The greedy `\S+` followed by `\]`
backtracks to the last `]` inside the maximal non-whitespace run after `[`,
which must leave at least one character for `\S+`. -/
def matchTitleRE (s : String) : Option (String × String) :=
  let cs := s.data.dropWhile isPyWs
  match cs with
  | '[' :: rest =>
    let run := rest.takeWhile (fun c => !isPyWs c)
    let tail := rest.drop run.length
    match lastIdxOf run with
    | some m =>
      if 1 ≤ m then
        some (String.mk (run.take m), String.mk ((run.drop (m + 1) ++ tail).dropWhile isPyWs))
      else none
    | none => none
  | _ => none

/-- Title-line interpretation in `DotFormat.read`: on a regex match the
captured groups, otherwise the whole (already stripped) line with no
description. -/
def parseTitleLine (s : String) : String × Option String :=
  match matchTitleRE s with
  | some (t, d) => (t, some d)
  | none => (s, none)

/-- 0-based index of the line read as the title for a first-terminator at
0-based index `i`: Python `lines[i - 1]`, which for `i = 0` is negative
indexing and yields the last of the `n` lines. -/
def titleLineIdx (n i : Nat) : Nat := if i = 0 then n - 1 else i - 1

/-- The partially built last entry of `tests` in `DotFormat.read`: after one
terminator it holds `[i, title, description]`, after two it additionally
holds the content block.  (The Python `section` variable is represented by
the shape of this value: `none` ↔ section 0, `titled` ↔ 1, `contented` ↔ 2.) -/
inductive Pending where
  | titled (pos : Nat) (title : String) (descr : Option String)
  | contented (pos : Nat) (title : String) (descr : Option String) (content : String)
deriving DecidableEq, Repr

/-- Position (the 0-based index of the record's first terminator, stored by
the source as the record's `line`). -/
def Pending.pos : Pending → Nat
  | .titled p _ _ => p
  | .contented p _ _ _ => p

def Pending.title : Pending → String
  | .titled _ t _ => t
  | .contented _ t _ _ => t

def Pending.descr : Pending → Option String
  | .titled _ _ d => d
  | .contented _ _ d _ => d

/-- A completed five-element entry of `tests` in `DotFormat.read`. -/
structure RawRec where
  pos : Nat
  title : String
  descr : Option String
  content : String
  expected : String
deriving DecidableEq, Repr

/-- Loop state of `DotFormat.read`: the `last_pos` cursor, the completed
entries of `tests`, and the pending (incomplete) last entry if any. -/
structure ScanState where
  lastPos : Nat
  done : List RawRec
  cur : Option Pending
deriving DecidableEq, Repr

/-- One iteration of the `for i in range(len(lines))` loop of
`DotFormat.read`. -/
def dotStep (lines : List String) (st : ScanState) (i : Nat) : ScanState :=
  if isTerm (lines.getD i "") then
    match st.cur with
    | none =>
      { lastPos := i, done := st.done,
        cur := some (.titled i
          (parseTitleLine (pyStrip (lines.getD (titleLineIdx lines.length i) ""))).1
          (parseTitleLine (pyStrip (lines.getD (titleLineIdx lines.length i) ""))).2) }
    | some (.titled p t d) =>
      { lastPos := i, done := st.done,
        cur := some (.contented p t d (String.join (pySlice lines (st.lastPos + 1) i))) }
    | some (.contented p t d c) =>
      { lastPos := i,
        done := st.done ++ [⟨p, t, d, c, String.join (pySlice lines (st.lastPos + 1) i)⟩],
        cur := none }
  else st

/-- The scan after the first `n` loop iterations. -/
def scanN (lines : List String) (n : Nat) : ScanState :=
  (List.range n).foldl (dotStep lines) ⟨0, [], none⟩

/-- The full scan of `DotFormat.read` over all lines. -/
def dotScan (lines : List String) : ScanState := scanN lines lines.length

/-- The `ParamTestData` dataclass, specialised to the text format (where
`content` and `expected` are strings, `extra` is empty, and the `fmt`
back-reference is replaced by passing the file text explicitly). -/
structure ParamTestData where
  line : Nat
  title : String
  description : Option String
  content : String
  expected : String
  index : Nat
deriving DecidableEq, Repr

/-- `yield ParamTestData(*test, fmt=self, index=index)` over
`enumerate(tests)`: attach 0-based indices starting at `n`. -/
def withIndices : Nat → List RawRec → List ParamTestData
  | _, [] => []
  | n, r :: rest => ⟨r.pos, r.title, r.descr, r.content, r.expected, n⟩ :: withIndices (n + 1) rest

/-- Message of the `TypeError` Python raises when the generator reaches a
`tests` entry with only three elements (`content` and `expected` missing). -/
def tyErrMsg2 : String :=
  "ParamTestData.__init__() missing 2 required positional arguments: \x27content\x27 and \x27expected\x27"

/-- Message of the `TypeError` Python raises when the generator reaches a
`tests` entry with four elements (`expected` missing). -/
def tyErrMsg1 : String :=
  "ParamTestData.__init__() missing 1 required positional argument: \x27expected\x27"

/-- `DotFormat.read`, consumed eagerly as `list(fmt_inst.read())` is in
`create_parameters`: either the full record list, or the error the generator
raises when the file ends with an incomplete entry. -/
def DotFormat.read (text : String) : Except String (List ParamTestData) :=
  let st := dotScan (splitlines text)
  match st.cur with
  | some (.titled _ _ _) => .error tyErrMsg2
  | some (.contented _ _ _ _) => .error tyErrMsg1
  | none => .ok (withIndices 0 st.done)

/-- The normalization `DotFormat.regen_file` applies to `actual`, identical
to the per-value transformation of `assert_expected_strings`: optional
`rstrip`, then optional per-line rstrip-join-rstrip. -/
def normalizeActual (rstrip rstrip_lines : Bool) (actual : String) : String :=
  let a := if rstrip then pyRstrip actual else actual
  if rstrip_lines then
    pyRstrip (String.intercalate "\n" ((splitlinesNoKeep a).map pyRstrip))
  else a

/-- `diff_strings`.  The unified-diff hunk lines are produced by the external
`difflib` library and are not modelled (no claim inspects them, nor the
500-line cap applied to them); only the fixed header and the two file labels
are represented. -/
def diff_strings (actual expected : String) (path : String) (line : Nat) : String :=
  "actual != expected (use --regen-file-failure)\n"
    ++ "--- " ++ path ++ ":" ++ toString line ++ "\n"
    ++ "+++ (actual)\n"
    ++ expected ++ "\n" ++ actual ++ "\n"

/-- `assert_expected_strings`: normalize both sides with the two options,
then exact equality; `none` means match. -/
def assert_expected_strings (actual expected : String) (path : String) (line : Nat)
    (rstrip rstrip_lines : Bool) : Option String :=
  let a := normalizeActual rstrip rstrip_lines actual
  let e := normalizeActual rstrip rstrip_lines expected
  if a == e then none else some (diff_strings a e path line)

/-- The pieces `DotFormat.regen_file` appends to `text` for one record with a
given expected block. -/
def serializeRecord (r : ParamTestData) (e : String) : List String :=
  (match r.description with
   | some d => ["[" ++ r.title ++ "] " ++ d ++ "\n"]
   | none => [r.title ++ "\n"])
  ++ [".\n"] ++ [r.content] ++ [".\n"] ++ [e]
  ++ (if endsWithLF e then [] else ["\n"])
  ++ [".\n", "\n"]

/-- The `for index, current in enumerate(self.read())` serialization loop of
`DotFormat.regen_file`: `i` is the enumeration counter, `k` the target
index (`data.index`), `a` the already-normalized new actual value. -/
def regenPiecesAux (k : Nat) (a : String) : Nat → List ParamTestData → List String
  | _, [] => []
  | i, r :: rest =>
    serializeRecord r (if i == k then a else r.expected) ++ regenPiecesAux k a (i + 1) rest

/-- Serialization of every record with its own expected block (what the
regeneration loop emits away from the target index). -/
def ownPieces : List ParamTestData → List String
  | [] => []
  | r :: rest => serializeRecord r r.expected ++ ownPieces rest

/-- `DotFormat.regen_file`: re-read the current file, re-serialize every
record, replacing the expected block at `data.index` by the normalized
`actual`; `text[:-1]` drops the final separator `"\n"`.  Returns the text
written back, or the error `read` raises. -/
def DotFormat.regen_file (text : String) (k : Nat) (actual : String)
    (rstrip rstrip_lines : Bool) : Except String String :=
  match DotFormat.read text with
  | .error e => .error e
  | .ok recs =>
    .ok (String.join ((regenPiecesAux k (normalizeActual rstrip rstrip_lines actual) 0 recs).dropLast))

/-- Serialization of a record list as `regen_file` would write it when no
expected block changes. -/
def canonicalText (recs : List ParamTestData) : String :=
  String.join ((ownPieces recs).dropLast)

/-- Runtime values flowing through the format-generic comparison code
(payloads of the structured format may be non-string). -/
inductive PyValue where
  | str (s : String)
  | int (n : Int)
  | noneVal
deriving DecidableEq, Repr

/-- The runtime type of a value, standing for Python `type(x)`. -/
inductive PyType where
  | strT
  | intT
  | noneT
deriving DecidableEq, Repr

def pyTypeOf : PyValue → PyType
  | .str _ => .strT
  | .int _ => .intT
  | .noneVal => .noneT

/-- Python `repr(type(x))`, as interpolated into the mismatch message. -/
def pyTypeRepr : PyValue → String
  | .str _ => "<class \x27str\x27>"
  | .int _ => "<class \x27int\x27>"
  | .noneVal => "<class \x27NoneType\x27>"

/-- Python `str(x)` for the modelled values. -/
def pyStrOf : PyValue → String
  | .str s => s
  | .int n => toString n
  | .noneVal => "None"

/-- Python `==` on the modelled values (equal only within one type). -/
def pyEq : PyValue → PyValue → Bool
  | .str a, .str b => a == b
  | .int a, .int b => a == b
  | .noneVal, .noneVal => true
  | _, _ => false

/-- The message `YamlFormat.assert_expected` returns when the runtime types
differ. -/
def typeMismatchMsg (actual expected : PyValue) : String :=
  "actual type " ++ pyTypeRepr actual ++ " != expected type " ++ pyTypeRepr expected

/-- `YamlFormat.assert_expected`: type check first, then the string path,
then plain value equality with a plain report. -/
def YamlFormat.assert_expected (path : String) (line : Nat) (actual expected : PyValue)
    (rstrip rstrip_lines : Bool) : Option String :=
  if pyTypeOf actual ≠ pyTypeOf expected then some (typeMismatchMsg actual expected)
  else
    match actual, expected with
    | .str a, .str e => assert_expected_strings a e path line rstrip rstrip_lines
    | a, e =>
      if pyEq a e then none
      else some ("actual != expected (use --regen-file-failure)\n"
        ++ "actual: " ++ pyStrOf a ++ "\nexpected: " ++ pyStrOf e)

/-- Exceptions escaping `DotFormat.assert_expected` on non-string operands. -/
inductive PyExn where
  | typeError
  | attributeError
deriving DecidableEq, Repr

/-- `DotFormat.assert_expected` delegates to `assert_expected_strings` with
`cast(str, data.expected)` — a no-op at runtime.  With both operands strings
it is total; otherwise a normalization option makes `.rstrip`/`.splitlines`
raise `AttributeError`, and a failed equality makes the `+ "\n"`
concatenation in `diff_strings` raise `TypeError`.  (Equal non-string values
slip through and compare equal before any string operation runs.) -/
def DotFormat.assert_expected (path : String) (line : Nat) (actual expected : PyValue)
    (rstrip rstrip_lines : Bool) : Except PyExn (Option String) :=
  match actual, expected with
  | .str a, .str e => .ok (assert_expected_strings a e path line rstrip rstrip_lines)
  | a, e =>
    if rstrip || rstrip_lines then .error .attributeError
    else if pyEq a e then .ok none
    else .error .typeError

/-- A structured-format document as the round-trip (`typ="rt"`) loader
presents it to `YamlFormat.regen_file`: a top-level mapping from titles to
per-test mappings. -/
structure YamlDoc where
  entries : List (String × List (String × PyValue))
deriving DecidableEq, Repr

/-- Python `mapping[key] = value`: replace in place, else append. -/
def setKey (m : List (String × PyValue)) (k : String) (v : PyValue) :
    List (String × PyValue) :=
  if m.any (fun kv => kv.1 == k) then
    m.map (fun kv => if kv.1 == k then (k, v) else kv)
  else m ++ [(k, v)]

/-- `YamlFormat.regen_file`: `new[data.title]["expected"] = actual`, with the
`**kwargs` (the normalization options) accepted but unused by the source.
(For a title absent from the document the source raises `KeyError`; claims
only concern titles of parsed records, which are present.) -/
def YamlFormat.regen_file (doc : YamlDoc) (title : String) (actual : PyValue)
    (rstrip rstrip_lines : Bool) : YamlDoc :=
  ⟨doc.entries.map (fun e => if e.1 == title then (e.1, setKey e.2 "expected" actual) else e)⟩

/-- The `expected` value stored for a title, for stating what `regen_file`
wrote. -/
def YamlDoc.getExpected (doc : YamlDoc) (title : String) : Option PyValue :=
  match doc.entries.find? (fun e => e.1 == title) with
  | some (_, m) => (m.find? (fun kv => kv.1 == "expected")).map (fun kv => kv.2)
  | none => none

/-- Outcome of `ParamTestData.assert_expected`: normal return or a raised
`AssertionError` with its message. -/
inductive FacadeResult where
  | success
  | assertionError (msg : String)
deriving DecidableEq, Repr

/-- `ParamTestData.assert_expected`: `error` is the comparison engine's
result (`self.fmt.assert_expected(actual, self, **kwargs)`), `regen_result`
the outcome of `self.fmt.regen_file(...)` (`.error` carries the formatted
traceback). -/
def ParamTestData.assert_expected (error : Option String) (regen_on_failure : Bool)
    (regen_result : Except String Unit) (path : String) : FacadeResult :=
  match error with
  | none => .success
  | some err =>
    if regen_on_failure then
      match regen_result with
      | .error tb => .assertionError (err ++ "\nRegeneration failed:\n" ++ tb)
      | .ok _ => .assertionError (err ++ "\nREGENERATED FILE: " ++ path)
    else .assertionError err

/-- Number of terminator lines. -/
def countTerm (l : List String) : Nat := l.countP (fun s => isTerm s)

/-- All record positions held by a scan state, completed entries first. -/
def posList (st : ScanState) : List Nat :=
  st.done.map (fun r => r.pos) ++ (st.cur.map Pending.pos).toList

/-- Number of terminators consumed by the pending entry. -/
def curWeight : Option Pending → Nat
  | none => 0
  | some (.titled _ _ _) => 1
  | some (.contented _ _ _ _) => 2

/-- The title data a record at first-terminator position `p` carries: `p` is
a terminator line and title/description are parsed from the line
`lines[p - 1]` (negative Python indexing for `p = 0`). -/
def recOK (lines : List String) (p : Nat) (t : String) (d : Option String) : Prop :=
  isTerm (lines.getD p "") = true ∧
    (t, d) = parseTitleLine (pyStrip (lines.getD (titleLineIdx lines.length p) ""))

/-! ## Basic string and list lemmas -/

theorem strData_append (a b : String) : (a ++ b).data = a.data ++ b.data := by
  cases a; cases b; rfl

theorem str_append_empty (s : String) : s ++ "" = s := by
  apply String.ext
  rw [strData_append]
  simp [String.data]

theorem str_empty_append (s : String) : "" ++ s = s := by
  apply String.ext
  rw [strData_append]
  simp [String.data]

theorem str_append_assoc (a b c : String) : a ++ b ++ c = a ++ (b ++ c) := by
  apply String.ext
  simp [strData_append]

theorem str_foldl_append (l : List String) :
    ∀ a : String, l.foldl (· ++ ·) a = a ++ String.join l := by
  induction l with
  | nil => intro a; simp [String.join, str_append_empty]
  | cons s t ih =>
    intro a
    show t.foldl (· ++ ·) (a ++ s) = a ++ String.join (s :: t)
    rw [ih (a ++ s)]
    show a ++ s ++ String.join t = a ++ List.foldl (· ++ ·) ("" ++ s) t
    rw [ih ("" ++ s), str_empty_append, str_append_assoc]

theorem string_join_cons (s : String) (l : List String) :
    String.join (s :: l) = s ++ String.join l := by
  show List.foldl (· ++ ·) ("" ++ s) l = s ++ String.join l
  rw [str_foldl_append, str_empty_append]

theorem endsBreak_append (a b : String) (hb : endsBreak b = true) :
    endsBreak (a ++ b) = true := by
  unfold endsBreak at *
  rw [strData_append]
  cases hd : b.data.getLast? with
  | none => rw [hd] at hb; exact absurd hb (by simp)
  | some c =>
    have hne : b.data ≠ [] := by
      intro h
      rw [h] at hd
      simp at hd
    rw [List.getLast?_append_of_ne_nil _ hne, hd]
    rw [hd] at hb
    exact hb

theorem join_blockOK (l : List String) (h : ∀ s ∈ l, endsBreak s = true) :
    String.join l = "" ∨ endsBreak (String.join l) = true := by
  induction l with
  | nil => left; rfl
  | cons s t ih =>
    right
    rw [string_join_cons]
    rcases ih (fun x hx => h x (List.mem_cons_of_mem _ hx)) with h0 | h1
    · rw [h0, str_append_empty]
      exact h s (List.mem_cons_self _ _)
    · exact endsBreak_append _ _ h1

theorem mem_dropLast_cons {α : Type} {x a : α} {l : List α}
    (h : x ∈ (a :: l).dropLast) : x = a ∨ x ∈ l.dropLast := by
  cases l with
  | nil => simp [List.dropLast] at h
  | cons b t =>
    rw [List.dropLast_cons₂] at h
    rcases List.mem_cons.mp h with h | h
    · exact Or.inl h
    · exact Or.inr h

set_option maxHeartbeats 2000000 in
theorem splitlinesAux_dropLast_endsBreak :
    ∀ (cs acc : List Char), ∀ s ∈ (splitlinesAux cs acc).dropLast, endsBreak s = true := by
  intro cs acc
  induction cs, acc using splitlinesAux.induct with
  | case1 acc h =>
    intro s hs
    rw [splitlinesAux, if_pos h] at hs
    simp at hs
  | case2 acc h =>
    intro s hs
    rw [splitlinesAux, if_neg h] at hs
    simp at hs
  | case3 rest acc ih =>
    intro s hs
    rw [splitlinesAux] at hs
    rcases mem_dropLast_cons hs with h | h
    · subst h
      simp [endsBreak, isLineBoundary]
    · exact ih s h
  | case4 c rest acc hne hb ih =>
    intro s hs
    rw [splitlinesAux] at hs
    · rw [if_pos hb] at hs
      rcases mem_dropLast_cons hs with h | h
      · subst h
        simp [endsBreak, hb]
      · exact ih s h
    · exact hne
  | case5 c rest acc hne hb ih =>
    intro s hs
    rw [splitlinesAux] at hs
    · rw [if_neg hb] at hs
      exact ih s hs
    · exact hne

theorem splitlines_dropLast_endsBreak (s : String) :
    ∀ x ∈ (splitlines s).dropLast, endsBreak x = true :=
  splitlinesAux_dropLast_endsBreak s.data []

theorem mem_of_getLast?_mem {α : Type} {l : List α} {x : α} (h : x ∈ l.getLast?) : x ∈ l := by
  rcases List.mem_getLast?_eq_getLast h with ⟨hne, hx⟩
  rw [hx]
  exact List.getLast_mem hne

theorem mem_slice_dropLast {l : List String} {a b : Nat} (hb : b < l.length) :
    ∀ x ∈ pySlice l a b, x ∈ l.dropLast := by
  intro x hx
  have hx' : x ∈ l.take b := List.mem_of_mem_drop hx
  have heq : l.dropLast.take b = l.take b := by
    rw [List.dropLast_eq_take, List.take_take, min_eq_left (by omega : b ≤ l.length - 1)]
  rw [← heq] at hx'
  exact List.mem_of_mem_take hx'

theorem blockOK_slice {l : List String} (HB : ∀ x ∈ l.dropLast, endsBreak x = true)
    {a b : Nat} (hb : b < l.length) :
    String.join (pySlice l a b) = "" ∨ endsBreak (String.join (pySlice l a b)) = true :=
  join_blockOK _ (fun s hs => HB s (mem_slice_dropLast hb s hs))

theorem scanN_zero (lines : List String) : scanN lines 0 = ⟨0, [], none⟩ := rfl

theorem scanN_succ (lines : List String) (n : Nat) :
    scanN lines (n + 1) = dotStep lines (scanN lines n) n := by
  unfold scanN
  rw [List.range_succ, List.foldl_append]
  rfl

/-- Invariant of the `DotFormat.read` scan after `n` loop iterations. -/
structure ScanInv (lines : List String) (n : Nat) (st : ScanState) : Prop where
  chain : List.Chain' (· < ·) (posList st)
  bound : ∀ x ∈ posList st, x < n
  head0 : isTerm (lines.getD 0 "") = true → 1 ≤ n → (posList st).head? = some 0
  doneOK : ∀ r ∈ st.done, recOK lines r.pos r.title r.descr
  curOK : ∀ p ∈ st.cur, recOK lines p.pos p.title p.descr
  doneBlocks : ∀ r ∈ st.done,
    (r.content = "" ∨ endsBreak r.content = true) ∧
    (r.expected = "" ∨ endsBreak r.expected = true)
  curBlocks : ∀ p t d c, st.cur = some (.contented p t d c) → (c = "" ∨ endsBreak c = true)
  count : countTerm (lines.take n) = 3 * st.done.length + curWeight st.cur

theorem scanN_inv (lines : List String) (HB : ∀ x ∈ lines.dropLast, endsBreak x = true) :
    ∀ n, n ≤ lines.length → ScanInv lines n (scanN lines n) := by
  intro n
  induction n with
  | zero =>
    intro _
    refine ⟨?_, ?_, ?_, ?_, ?_, ?_, ?_, ?_⟩ <;>
      simp [scanN_zero, posList, countTerm, curWeight]
  | succ n ih =>
    intro hn
    have hnlt : n < lines.length := hn
    have inv := ih (Nat.le_of_succ_le hn)
    have htake : lines.take (n + 1) = lines.take n ++ [lines.getD n ""] := by
      rw [List.take_succ, List.getElem?_eq_getElem hnlt,
        List.getD_eq_getElem lines "" hnlt]
      rfl
    have hcount : countTerm (lines.take (n + 1)) =
        countTerm (lines.take n) + (if isTerm (lines.getD n "") then 1 else 0) := by
      rw [htake]
      unfold countTerm
      rw [List.countP_append, List.countP_singleton]
    rw [scanN_succ]
    by_cases hT : isTerm (lines.getD n "") = true
    · -- terminator line: one of the three transitions
      rcases hcu : (scanN lines n).cur with _ | pd
      · -- section 0 → 1 : open a new titled entry
        have hstep : dotStep lines (scanN lines n) n =
            { lastPos := n, done := (scanN lines n).done,
              cur := some (.titled n
                (parseTitleLine (pyStrip (lines.getD (titleLineIdx lines.length n) ""))).1
                (parseTitleLine (pyStrip (lines.getD (titleLineIdx lines.length n) ""))).2) } := by
          unfold dotStep
          rw [if_pos hT, hcu]
        rw [hstep]
        have hplOld : posList (scanN lines n) =
            (scanN lines n).done.map (fun r => r.pos) := by
          simp [posList, hcu]
        have hplNew : posList
            { lastPos := n, done := (scanN lines n).done,
              cur := some (.titled n
                (parseTitleLine (pyStrip (lines.getD (titleLineIdx lines.length n) ""))).1
                (parseTitleLine (pyStrip (lines.getD (titleLineIdx lines.length n) ""))).2) }
            = (scanN lines n).done.map (fun r => r.pos) ++ [n] := by
          simp [posList, Pending.pos]
        refine ⟨?_, ?_, ?_, ?_, ?_, ?_, ?_, ?_⟩
        · rw [hplNew, List.chain'_append]
          refine ⟨hplOld ▸ inv.chain, List.chain'_singleton n, ?_⟩
          intro x hx y hy
          simp at hy
          subst hy
          exact inv.bound x (hplOld ▸ mem_of_getLast?_mem hx)
        · rw [hplNew]
          intro x hx
          rcases List.mem_append.mp hx with h | h
          · exact Nat.lt_succ_of_lt (inv.bound x (hplOld ▸ h))
          · simp at h
            omega
        · intro h0 _
          rw [hplNew]
          rcases Nat.eq_zero_or_pos n with hz | hpos
          · subst hz
            have : (scanN lines 0).done.map (fun r => r.pos) = [] := by
              simp [scanN_zero]
            rw [this]
            rfl
          · have hh := inv.head0 h0 hpos
            rw [hplOld] at hh
            have hne : (scanN lines n).done.map (fun r => r.pos) ≠ [] := by
              intro hemp
              rw [hemp] at hh
              simp at hh
            rw [List.head?_append_of_ne_nil _ hne, hh]
        · exact inv.doneOK
        · intro p hp
          simp at hp
          subst hp
          exact ⟨hT, by simp [Pending.pos, Pending.title, Pending.descr]⟩
        · exact inv.doneBlocks
        · intro p t d c hc
          simp at hc
        · rw [hcount, if_pos hT, inv.count, hcu]
          rfl
      · rcases pd with ⟨p, t, d⟩ | ⟨p, t, d, c⟩
        · -- section 1 → 2 : attach the content block
          have hstep : dotStep lines (scanN lines n) n =
              { lastPos := n, done := (scanN lines n).done,
                cur := some (.contented p t d
                  (String.join (pySlice lines ((scanN lines n).lastPos + 1) n))) } := by
            unfold dotStep
            rw [if_pos hT, hcu]
          rw [hstep]
          have hplOld : posList (scanN lines n) =
              (scanN lines n).done.map (fun r => r.pos) ++ [p] := by
            simp [posList, hcu, Pending.pos]
          have hplNew : posList
              { lastPos := n, done := (scanN lines n).done,
                cur := some (.contented p t d
                  (String.join (pySlice lines ((scanN lines n).lastPos + 1) n))) }
              = (scanN lines n).done.map (fun r => r.pos) ++ [p] := by
            simp [posList, Pending.pos]
          refine ⟨?_, ?_, ?_, ?_, ?_, ?_, ?_, ?_⟩
          · rw [hplNew, ← hplOld]
            exact inv.chain
          · rw [hplNew, ← hplOld]
            exact fun x hx => Nat.lt_succ_of_lt (inv.bound x hx)
          · intro h0 _
            rw [hplNew, ← hplOld]
            rcases Nat.eq_zero_or_pos n with hz | hpos
            · subst hz
              have : (scanN lines 0).cur = none := by simp [scanN_zero]
              rw [this] at hcu
              cases hcu
            · exact inv.head0 h0 hpos
          · exact inv.doneOK
          · intro q hq
            simp at hq
            subst hq
            have := inv.curOK (.titled p t d) (by rw [hcu]; rfl)
            exact this
          · exact inv.doneBlocks
          · intro p' t' d' c' hc
            simp at hc
            exact hc.2.2.2 ▸ blockOK_slice HB hnlt
          · rw [hcount, if_pos hT, inv.count, hcu]
            rfl
        · -- section 2 → 0 : close the record
          have hstep : dotStep lines (scanN lines n) n =
              { lastPos := n,
                done := (scanN lines n).done ++
                  [⟨p, t, d, c, String.join (pySlice lines ((scanN lines n).lastPos + 1) n)⟩],
                cur := none } := by
            unfold dotStep
            rw [if_pos hT, hcu]
          rw [hstep]
          have hplOld : posList (scanN lines n) =
              (scanN lines n).done.map (fun r => r.pos) ++ [p] := by
            simp [posList, hcu, Pending.pos]
          have hplNew : posList
              { lastPos := n,
                done := (scanN lines n).done ++
                  [⟨p, t, d, c, String.join (pySlice lines ((scanN lines n).lastPos + 1) n)⟩],
                cur := none }
              = (scanN lines n).done.map (fun r => r.pos) ++ [p] := by
            simp [posList]
          refine ⟨?_, ?_, ?_, ?_, ?_, ?_, ?_, ?_⟩
          · rw [hplNew, ← hplOld]
            exact inv.chain
          · rw [hplNew, ← hplOld]
            exact fun x hx => Nat.lt_succ_of_lt (inv.bound x hx)
          · intro h0 _
            rw [hplNew, ← hplOld]
            rcases Nat.eq_zero_or_pos n with hz | hpos
            · subst hz
              have : (scanN lines 0).cur = none := by simp [scanN_zero]
              rw [this] at hcu
              cases hcu
            · exact inv.head0 h0 hpos
          · intro r hr
            rcases List.mem_append.mp hr with h | h
            · exact inv.doneOK r h
            · simp at h
              subst h
              exact inv.curOK (.contented p t d c) (by rw [hcu]; rfl)
          · intro q hq
            simp at hq
          · intro r hr
            rcases List.mem_append.mp hr with h | h
            · exact inv.doneBlocks r h
            · simp at h
              subst h
              exact ⟨inv.curBlocks p t d c hcu, blockOK_slice HB hnlt⟩
          · intro p' t' d' c' hc
            simp at hc
          · rw [hcount, if_pos hT, inv.count, hcu]
            simp [curWeight]
            ring
    · -- not a terminator: the state is unchanged
      have hstep : dotStep lines (scanN lines n) n = scanN lines n := by
        unfold dotStep
        rw [if_neg hT]
      rw [hstep]
      refine ⟨inv.chain, ?_, ?_, inv.doneOK, inv.curOK, inv.doneBlocks, inv.curBlocks, ?_⟩
      · exact fun x hx => Nat.lt_succ_of_lt (inv.bound x hx)
      · intro h0 _
        rcases Nat.eq_zero_or_pos n with hz | hpos
        · subst hz
          exact absurd h0 hT
        · exact inv.head0 h0 hpos
      · rw [hcount, if_neg hT, inv.count]
        omega

theorem withIndices_length (n : Nat) (l : List RawRec) :
    (withIndices n l).length = l.length := by
  induction l generalizing n with
  | nil => rfl
  | cons r rest ih => simp [withIndices, ih]

theorem withIndices_map_index (n : Nat) (l : List RawRec) :
    (withIndices n l).map (fun r => r.index) = List.range' n l.length := by
  induction l generalizing n with
  | nil => rfl
  | cons r rest ih => simp [withIndices, List.range'_succ, ih]

theorem withIndices_map_line (n : Nat) (l : List RawRec) :
    (withIndices n l).map (fun r => r.line) = l.map (fun r => r.pos) := by
  induction l generalizing n with
  | nil => rfl
  | cons r rest ih => simp [withIndices, ih]

theorem mem_withIndices {n : Nat} {l : List RawRec} {r : ParamTestData}
    (h : r ∈ withIndices n l) :
    ∃ raw ∈ l, r.line = raw.pos ∧ r.title = raw.title ∧ r.description = raw.descr ∧
      r.content = raw.content ∧ r.expected = raw.expected := by
  induction l generalizing n with
  | nil => simp [withIndices] at h
  | cons q rest ih =>
    rcases List.mem_cons.mp h with h | h
    · exact ⟨q, List.mem_cons_self _ _, by simp [h]⟩
    · rcases ih h with ⟨raw, hmem, hfields⟩
      exact ⟨raw, List.mem_cons_of_mem _ hmem, hfields⟩

theorem read_ok_elim {text : String} {recs : List ParamTestData}
    (h : DotFormat.read text = .ok recs) :
    (dotScan (splitlines text)).cur = none ∧
      recs = withIndices 0 (dotScan (splitlines text)).done := by
  rcases hcu : (dotScan (splitlines text)).cur with _ | pd
  · simp only [DotFormat.read, hcu, Except.ok.injEq] at h
    exact ⟨rfl, h.symm⟩
  · rcases pd with ⟨p, t, d⟩ | ⟨p, t, d, c⟩ <;> simp [DotFormat.read, hcu] at h

theorem regenPiecesAux_own (k : Nat) (a : String) :
    ∀ (recs : List ParamTestData) (i : Nat),
      (∀ r', i ≤ k → recs.get? (k - i) = some r' → r'.expected = a) →
      regenPiecesAux k a i recs = ownPieces recs := by
  intro recs
  induction recs with
  | nil => intro i _; rfl
  | cons r rest ih =>
    intro i H
    show serializeRecord r (if i == k then a else r.expected) ++ regenPiecesAux k a (i + 1) rest
      = serializeRecord r r.expected ++ ownPieces rest
    have htail : regenPiecesAux k a (i + 1) rest = ownPieces rest := by
      apply ih
      intro r' h1 h2
      apply H r' (by omega)
      have hk : k - i = (k - (i + 1)) + 1 := by omega
      rw [hk]
      simpa using h2
    rw [htail]
    by_cases hik : i = k
    · subst hik
      have ha : r.expected = a := H r le_rfl (by simp)
      simp [ha]
    · have : (i == k) = false := by simp [hik]
      rw [this]
      simp

theorem dotScan_inv (lines : List String) (HB : ∀ x ∈ lines.dropLast, endsBreak x = true) :
    ScanInv lines lines.length (dotScan lines) :=
  scanN_inv lines HB lines.length le_rfl

/-- Claim C1: for every well-formed text-format fixture file containing N
three-block records, parsing (`DotFormat.read`, as consumed by
`load`/`create_parameters`) returns exactly N records whose `index` values
are strictly increasing 0..N-1 and whose `line` values are strictly
increasing in file order.  (N is the number of terminator lines divided by
three; a successful parse consumes exactly three terminators per record.) -/
theorem dot_read_index_line_invariants (text : String) (recs : List ParamTestData)
    (h : DotFormat.read text = .ok recs) :
    3 * recs.length = countTerm (splitlines text) ∧
    recs.map (fun r => r.index) = List.range recs.length ∧
    List.Chain' (· < ·) (recs.map (fun r => r.line)) := by
  obtain ⟨hcur, hrecs⟩ := read_ok_elim h
  have inv := dotScan_inv (splitlines text) (splitlines_dropLast_endsBreak text)
  have hlen : recs.length = (dotScan (splitlines text)).done.length := by
    rw [hrecs, withIndices_length]
  have hpl : posList (dotScan (splitlines text)) =
      (dotScan (splitlines text)).done.map (fun r => r.pos) := by
    simp [posList, hcur]
  refine ⟨?_, ?_, ?_⟩
  · have hc := inv.count
    rw [List.take_length, hcur] at hc
    rw [hlen, hc]
    rfl
  · rw [hrecs, withIndices_map_index, List.range_eq_range', withIndices_length]
  · rw [hrecs, withIndices_map_line, ← hpl]
    exact inv.chain

/-- Witness for C1 on a concrete two-record file. -/
theorem dot_read_index_line_invariants_witness :
    3 * ([⟨1, "a", some "d", "c\n", "e\n", 0⟩,
          ⟨8, "b", none, "c2\n", "e2\n", 1⟩] : List ParamTestData).length
      = countTerm (splitlines "[a] d\n.\nc\n.\ne\n.\n\nb\n.\nc2\n.\ne2\n.\n") ∧
    ([⟨1, "a", some "d", "c\n", "e\n", 0⟩,
      ⟨8, "b", none, "c2\n", "e2\n", 1⟩] : List ParamTestData).map (fun r => r.index)
      = List.range ([⟨1, "a", some "d", "c\n", "e\n", 0⟩,
          ⟨8, "b", none, "c2\n", "e2\n", 1⟩] : List ParamTestData).length ∧
    List.Chain' (· < ·)
      (([⟨1, "a", some "d", "c\n", "e\n", 0⟩,
         ⟨8, "b", none, "c2\n", "e2\n", 1⟩] : List ParamTestData).map (fun r => r.line)) :=
  dot_read_index_line_invariants "[a] d\n.\nc\n.\ne\n.\n\nb\n.\nc2\n.\ne2\n.\n" _ rfl

/-- Claim C8: for every record produced by the text-format parser, the
record's `line` field is such that the record's first terminator sits at
0-based index `line` and its title/description are parsed from the line at
0-based index `line - 1` — i.e. `line` is the 1-based line number of the
title line, the line immediately preceding the record's first terminator.
(The hypothesis `1 ≤ r.line` restricts to well-formed files, excluding the
degenerate leading-terminator record, whose title is not a preceding line.) -/
theorem dot_read_line_is_title_line (text : String) (recs : List ParamTestData)
    (h : DotFormat.read text = .ok recs) (r : ParamTestData) (hr : r ∈ recs)
    (h1 : 1 ≤ r.line) :
    isTerm ((splitlines text).getD r.line "") = true ∧
    (r.title, r.description) =
      parseTitleLine (pyStrip ((splitlines text).getD (r.line - 1) "")) := by
  obtain ⟨hcur, hrecs⟩ := read_ok_elim h
  rw [hrecs] at hr
  rcases mem_withIndices hr with ⟨raw, hmem, hline, htitle, hdescr, _, _⟩
  have inv := dotScan_inv (splitlines text) (splitlines_dropLast_endsBreak text)
  rcases inv.doneOK raw hmem with ⟨hterm, htd⟩
  refine ⟨hline ▸ hterm, ?_⟩
  have hidx : titleLineIdx (splitlines text).length raw.pos = raw.pos - 1 := by
    unfold titleLineIdx
    rw [if_neg (by omega : ¬ raw.pos = 0)]
  rw [hline, htitle, hdescr, ← hidx]
  exact htd

/-- Witness for C8 on a concrete one-record file. -/
theorem dot_read_line_is_title_line_witness :
    isTerm ((splitlines "t\n.\nc\n.\ne\n.\n").getD
      (⟨1, "t", none, "c\n", "e\n", 0⟩ : ParamTestData).line "") = true ∧
    ((⟨1, "t", none, "c\n", "e\n", 0⟩ : ParamTestData).title,
     (⟨1, "t", none, "c\n", "e\n", 0⟩ : ParamTestData).description) =
      parseTitleLine (pyStrip ((splitlines "t\n.\nc\n.\ne\n.\n").getD
        ((⟨1, "t", none, "c\n", "e\n", 0⟩ : ParamTestData).line - 1) "")) :=
  dot_read_line_is_title_line "t\n.\nc\n.\ne\n.\n" _ rfl _ (by decide) (by decide)

/-- Claim C10 (amended): every record's `content` and `expected` fields are
either empty or end with one of the line-boundary characters of
`str.splitlines` (`"\n"`, `"\r"`, `"\x0b"`, `"\x0c"`, `"\x1c"`, `"\x1d"`,
`"\x1e"`, `"\x85"`, `"\u2028"`, `"\u2029"`): each block is a concatenation
of whole kept-ends source lines lying strictly between two terminator
lines, hence strictly before the file's last line. -/
theorem dot_blocks_end_with_line_break (text : String) (recs : List ParamTestData)
    (h : DotFormat.read text = .ok recs) (r : ParamTestData) (hr : r ∈ recs) :
    (r.content = "" ∨ endsBreak r.content = true) ∧
    (r.expected = "" ∨ endsBreak r.expected = true) := by
  obtain ⟨hcur, hrecs⟩ := read_ok_elim h
  rw [hrecs] at hr
  rcases mem_withIndices hr with ⟨raw, hmem, _, _, _, hcontent, hexpected⟩
  have inv := dotScan_inv (splitlines text) (splitlines_dropLast_endsBreak text)
  rcases inv.doneBlocks raw hmem with ⟨hc, he⟩
  exact ⟨hcontent ▸ hc, hexpected ▸ he⟩

/-- Witness for (amended) C10 on a concrete one-record file. -/
theorem dot_blocks_end_with_line_break_witness :
    ((⟨1, "t", none, "c\n", "e\n", 0⟩ : ParamTestData).content = "" ∨
      endsBreak (⟨1, "t", none, "c\n", "e\n", 0⟩ : ParamTestData).content = true) ∧
    ((⟨1, "t", none, "c\n", "e\n", 0⟩ : ParamTestData).expected = "" ∨
      endsBreak (⟨1, "t", none, "c\n", "e\n", 0⟩ : ParamTestData).expected = true) :=
  dot_blocks_end_with_line_break "t\n.\nc\n.\ne\n.\n" _ rfl _ (by decide)

/-- Counterexample to C10 as stated: `str.splitlines` also breaks on `"\r"`
and on the rarer boundaries such as `"\x0b"` (vertical tab), so a parsed
`content` block can be non-empty yet end with `"\r"` — or with `"\x0b"`,
a character that is not a newline under any reading. -/
theorem dot_block_non_newline_ending :
    DotFormat.read "t\n.\nc\r.\ne\n.\n" = .ok [⟨1, "t", none, "c\r", "e\n", 0⟩]
    ∧ ("c\r" : String) ≠ "" ∧ endsWithLF "c\r" = false
    ∧ DotFormat.read "t\n.\nc\x0b.\ne\n.\n" = .ok [⟨1, "t", none, "c\x0b", "e\n", 0⟩]
    ∧ ("c\x0b" : String) ≠ "" ∧ endsWithLF "c\x0b" = false
    ∧ ("c\x0b").data.getLast? ≠ some (Char.ofNat 13) :=
  ⟨rfl, by decide, by decide, rfl, by decide, by decide, by decide⟩

/-- Claim C6 (amended): a text-format file that ends mid-record makes
parsing fail, but with the constructor `TypeError` for the missing
positional arguments — a constant message that identifies neither the file
nor the last successfully closed record. -/
theorem dot_read_error_is_constant (text msg : String)
    (h : DotFormat.read text = .error msg) : msg = tyErrMsg1 ∨ msg = tyErrMsg2 := by
  rcases hcu : (dotScan (splitlines text)).cur with _ | pd
  · simp [DotFormat.read, hcu] at h
  · rcases pd with ⟨p, t, d⟩ | ⟨p, t, d, c⟩ <;>
      simp only [DotFormat.read, hcu, Except.error.injEq] at h
    · exact Or.inr h.symm
    · exact Or.inl h.symm

/-- Witness for (amended) C6 on a concrete truncated file. -/
theorem dot_read_error_is_constant_witness :
    tyErrMsg2 = tyErrMsg1 ∨ tyErrMsg2 = tyErrMsg2 :=
  dot_read_error_is_constant "t\n.\nc\n" tyErrMsg2 rfl

/-- Counterexample to C6 as stated: two files with different names' worth of
content and different last successfully closed records (none vs. `[a]`)
produce the identical error value, so the error cannot identify the file or
the last closed record. -/
theorem dot_read_error_lacks_context :
    DotFormat.read "t\n.\nc\n" = .error tyErrMsg2
    ∧ DotFormat.read "a\n.\nb\n.\nc\n.\nd\n.\ne\n" = .error tyErrMsg2 :=
  ⟨rfl, rfl⟩

/-- Claim C7 (amended): a terminator as the very first line is NOT a parse
error: the scan opens a record at position 0 whose title Python reads from
`lines[-1]` — the last line of the file — so parsing yields a degenerate
head record with `line = 0` and a title parsed from the file's last line. -/
theorem dot_leading_terminator_degenerate (text : String) (recs : List ParamTestData)
    (h : DotFormat.read text = .ok recs)
    (h0 : isTerm ((splitlines text).getD 0 "") = true) :
    ∃ r, recs.head? = some r ∧ r.line = 0 ∧
      (r.title, r.description) =
        parseTitleLine (pyStrip ((splitlines text).getD ((splitlines text).length - 1) "")) := by
  obtain ⟨hcur, hrecs⟩ := read_ok_elim h
  have hne : splitlines text ≠ [] := by
    intro hemp
    rw [hemp] at h0
    exact absurd h0 (by decide)
  have hlen : 1 ≤ (splitlines text).length := by
    cases hsp : splitlines text with
    | nil => exact absurd hsp hne
    | cons a l => simp [hsp]
  have inv := dotScan_inv (splitlines text) (splitlines_dropLast_endsBreak text)
  have hh := inv.head0 h0 hlen
  have hpl : posList (dotScan (splitlines text)) =
      (dotScan (splitlines text)).done.map (fun r => r.pos) := by
    simp [posList, hcur]
  rw [hpl] at hh
  cases hd : (dotScan (splitlines text)).done with
  | nil =>
    rw [hd] at hh
    simp at hh
  | cons raw rest =>
    rw [hd] at hh
    simp at hh
    rcases inv.doneOK raw (by rw [hd]; exact List.mem_cons_self _ _) with ⟨_, htd⟩
    refine ⟨⟨raw.pos, raw.title, raw.descr, raw.content, raw.expected, 0⟩, ?_, hh, ?_⟩
    · rw [hrecs, hd]
      rfl
    · have hidx : titleLineIdx (splitlines text).length raw.pos =
          (splitlines text).length - 1 := by
        unfold titleLineIdx
        rw [if_pos hh]
      rw [← hidx]
      exact htd

/-- Witness for (amended) C7 on a concrete file whose first line is a
terminator. -/
theorem dot_leading_terminator_degenerate_witness :
    ∃ r, ([(⟨0, ".", none, "x\n", "y\n", 0⟩ : ParamTestData)]).head? = some r ∧
      r.line = 0 ∧
      (r.title, r.description) =
        parseTitleLine (pyStrip ((splitlines ".\nx\n.\ny\n.\n").getD
          ((splitlines ".\nx\n.\ny\n.\n").length - 1) "")) :=
  dot_leading_terminator_degenerate ".\nx\n.\ny\n.\n" _ rfl (by decide)

/-- Counterexample to C7 as stated: a file whose very first line is a
terminator parses successfully (no parse error) and yields a degenerate
record whose title is taken from another line of the file (its last line). -/
theorem dot_leading_terminator_no_error :
    DotFormat.read ".\nx\n.\ny\n.\n" = .ok [⟨0, ".", none, "x\n", "y\n", 0⟩] :=
  rfl

/-- Claim C2 (amended): regenerating record `k` with its own unmodified
`expected` value (no normalization) rewrites the file to the canonical
serialization of its current records, so for a file already in canonical
form the rewrite is byte-identical and re-parsing yields a record list
equal in all fields to the original.  (For non-canonical files the rewrite
can change records: see the counterexample, where an empty expected block
becomes a lone newline.) -/
theorem dot_regen_roundtrip (text : String) (recs : List ParamTestData) (k : Nat)
    (r : ParamTestData) (h : DotFormat.read text = .ok recs)
    (hr : recs.get? k = some r) :
    DotFormat.regen_file text k r.expected false false = .ok (canonicalText recs)
    ∧ (canonicalText recs = text →
        DotFormat.read (canonicalText recs) = .ok recs) := by
  constructor
  · have hnorm : normalizeActual false false r.expected = r.expected := by
      simp [normalizeActual]
    have hown : regenPiecesAux k r.expected 0 recs = ownPieces recs := by
      apply regenPiecesAux_own
      intro r' _ h2
      rw [Nat.sub_zero, hr] at h2
      cases h2
      rfl
    simp only [DotFormat.regen_file, h, hnorm, hown]
    rfl
  · intro hcan
    rw [hcan]
    exact h

/-- Witness for (amended) C2 on a concrete canonical one-record file: the
rewrite is byte-identical and re-parsing returns the identical record. -/
theorem dot_regen_roundtrip_witness :
    DotFormat.regen_file "t\n.\nc\n.\ne\n.\n" 0 "e\n" false false
      = .ok (canonicalText [(⟨1, "t", none, "c\n", "e\n", 0⟩ : ParamTestData)])
    ∧ DotFormat.read (canonicalText [(⟨1, "t", none, "c\n", "e\n", 0⟩ : ParamTestData)])
      = .ok [⟨1, "t", none, "c\n", "e\n", 0⟩] :=
  ⟨(dot_regen_roundtrip "t\n.\nc\n.\ne\n.\n" [⟨1, "t", none, "c\n", "e\n", 0⟩] 0
      ⟨1, "t", none, "c\n", "e\n", 0⟩ rfl rfl).1,
   (dot_regen_roundtrip "t\n.\nc\n.\ne\n.\n" [⟨1, "t", none, "c\n", "e\n", 0⟩] 0
      ⟨1, "t", none, "c\n", "e\n", 0⟩ rfl rfl).2 (by decide)⟩

/-- Counterexample to C2 as stated: a well-formed file whose record has an
empty expected block.  Regenerating record 0 with its own unmodified
expected value `""` pads the block with a newline, and re-parsing yields a
record differing in the `expected` field. -/
theorem dot_roundtrip_changes_record :
    DotFormat.read "t\n.\nc\n.\n.\n" = .ok [⟨1, "t", none, "c\n", "", 0⟩]
    ∧ DotFormat.regen_file "t\n.\nc\n.\n.\n" 0 "" false false = .ok "t\n.\nc\n.\n\n.\n"
    ∧ DotFormat.read "t\n.\nc\n.\n\n.\n" = .ok [⟨1, "t", none, "c\n", "\n", 0⟩]
    ∧ (⟨1, "t", none, "c\n", "", 0⟩ : ParamTestData) ≠ ⟨1, "t", none, "c\n", "\n", 0⟩ :=
  ⟨rfl, rfl, rfl, by decide⟩

/-- Claim C3 (code bug): regeneration is not idempotent when the new value
contains terminator lines (the hole the source marks with
`TODO what if actual has '.' line in the middle?`).  On a one-record file,
regenerating with a value containing three embedded `"."` lines succeeds,
and regenerating the resulting file again with the same value appends a
duplicated trailing record: the second write differs from the first. -/
theorem dot_regen_not_idempotent :
    DotFormat.regen_file "t\n.\nc\n.\ne\n.\n" 0 "x\n.\ny\n.\nz\n.\nw\n" false false
      = .ok "t\n.\nc\n.\nx\n.\ny\n.\nz\n.\nw\n.\n"
    ∧ DotFormat.regen_file "t\n.\nc\n.\nx\n.\ny\n.\nz\n.\nw\n.\n" 0
        "x\n.\ny\n.\nz\n.\nw\n" false false
      = .ok "t\n.\nc\n.\nx\n.\ny\n.\nz\n.\nw\n.\n\ny\n.\nz\n.\nw\n.\n"
    ∧ ("t\n.\nc\n.\nx\n.\ny\n.\nz\n.\nw\n.\n" : String)
      ≠ "t\n.\nc\n.\nx\n.\ny\n.\nz\n.\nw\n.\n\ny\n.\nz\n.\nw\n.\n" :=
  ⟨by decide, by decide, by decide⟩

/-- Claim C4 (amended): when the runtime types of `actual` and `expected`
differ, `YamlFormat.assert_expected` reports a mismatch naming both types
and never raises, for every combination of the normalization options; but
`DotFormat.assert_expected` raises (an `AttributeError` if a normalization
option is set, else a `TypeError` from `diff_strings`) instead of reporting
a mismatch. -/
theorem assert_expected_type_dispatch (path : String) (line : Nat) (a e : PyValue)
    (rs rl : Bool) (h : pyTypeOf a ≠ pyTypeOf e) :
    YamlFormat.assert_expected path line a e rs rl = some (typeMismatchMsg a e)
    ∧ DotFormat.assert_expected path line a e rs rl
        = .error (if rs || rl then .attributeError else .typeError) := by
  refine ⟨?_, ?_⟩
  · unfold YamlFormat.assert_expected
    rw [if_pos h]
  · cases a <;> cases e <;>
      first
        | exact absurd rfl h
        | (cases hrl : (rs || rl) <;> simp [DotFormat.assert_expected, pyEq, hrl])

/-- Witness for (amended) C4 at concrete values of differing types. -/
theorem assert_expected_type_dispatch_witness :
    YamlFormat.assert_expected "f.txt" 1 (.str "a") (.int 5) false true
      = some (typeMismatchMsg (.str "a") (.int 5))
    ∧ DotFormat.assert_expected "f.txt" 1 (.str "a") (.int 5) false true
        = .error (if false || true then .attributeError else .typeError) :=
  assert_expected_type_dispatch "f.txt" 1 (.str "a") (.int 5) false true (by decide)

/-- Counterexample to C4 as stated: comparing a string `actual` against a
non-string `expected` through `DotFormat.assert_expected` raises a
`TypeError` instead of reporting a type mismatch. -/
theorem dot_assert_expected_raises :
    DotFormat.assert_expected "f.txt" 1 (.str "a") (.int 5) false false
      = .error PyExn.typeError :=
  rfl

/-- Claim C5 (amended): `DotFormat.regen_file` applies the same
normalization options used for comparison to the new actual value before
re-serializing (regenerating with options equals regenerating the
pre-normalized value with no options); `YamlFormat.regen_file`, however,
ignores the options entirely and stores the raw actual value. -/
theorem regen_applies_normalization (text : String) (k : Nat) (v : String)
    (rs rl : Bool) (doc : YamlDoc) (title : String) (a : PyValue) :
    DotFormat.regen_file text k v rs rl
      = DotFormat.regen_file text k (normalizeActual rs rl v) false false
    ∧ YamlFormat.regen_file doc title a rs rl
      = YamlFormat.regen_file doc title a false false := by
  refine ⟨?_, rfl⟩
  have hnorm : normalizeActual false false (normalizeActual rs rl v)
      = normalizeActual rs rl v := by
    simp [normalizeActual]
  cases h : DotFormat.read text <;> simp [DotFormat.regen_file, h, hnorm]

/-- Counterexample to C5 as stated: with `rstrip = true`,
`YamlFormat.regen_file` stores the raw `"a "` — not the normalized value
`normalizeActual true false "a " = "a"` — as the record's expected value. -/
theorem yaml_regen_ignores_normalization :
    (YamlFormat.regen_file ⟨[("t", [("content", .str "c"), ("expected", .str "e")])]⟩
        "t" (.str "a ") true false).getExpected "t" = some (.str "a ")
    ∧ PyValue.str "a " ≠ PyValue.str (normalizeActual true false "a ") :=
  ⟨rfl, by decide⟩

/-- Claim C9: the facade `ParamTestData.assert_expected` returns normally
iff the comparison reported a match; on a mismatch it always raises an
`AssertionError` whose message starts with the original mismatch message,
extended — when regeneration is enabled — by the regenerated file's path on
success or a regeneration-failure note on exception, so regeneration never
replaces or suppresses the original mismatch and a successful regeneration
still fails the current run. -/
theorem facade_assert_expected (error : Option String) (re : Bool)
    (rr : Except String Unit) (path : String) :
    (ParamTestData.assert_expected error re rr path = .success ↔ error = none)
    ∧ (∀ e, error = some e →
        (re = false → ParamTestData.assert_expected error re rr path = .assertionError e)
        ∧ (re = true →
            (∀ tb, rr = .error tb →
              ParamTestData.assert_expected error re rr path
                = .assertionError (e ++ "\nRegeneration failed:\n" ++ tb))
            ∧ (rr = .ok () →
              ParamTestData.assert_expected error re rr path
                = .assertionError (e ++ "\nREGENERATED FILE: " ++ path)))) := by
  constructor
  · constructor
    · intro h
      cases error with
      | none => rfl
      | some e =>
        cases re with
        | false => simp [ParamTestData.assert_expected] at h
        | true => cases rr <;> simp [ParamTestData.assert_expected] at h
    · intro h
      subst h
      rfl
  · intro e he
    subst he
    refine ⟨?_, ?_⟩
    · intro hre
      subst hre
      rfl
    · intro hre
      subst hre
      refine ⟨?_, ?_⟩
      · intro tb htb
        subst htb
        rfl
      · intro hok
        subst hok
        rfl

/-- Witness for C9: a concrete mismatch with regeneration enabled and
successful raises with the original message plus the regenerated path. -/
theorem facade_assert_expected_witness :
    ParamTestData.assert_expected (some "m") true (.ok ()) "f.txt"
      = .assertionError ("m" ++ "\nREGENERATED FILE: " ++ "f.txt") :=
  (((facade_assert_expected (some "m") true (.ok ()) "f.txt").2 "m" rfl).2 rfl).2 rfl
